import Mathlib

/-!
Shallow embedding of the game logic of `tic_tac_toe_rs` (`src/main.rs`).

The presentation layer (SDL2 window, textures, fonts, pixel rectangles) is
outside the embedding; the game data and the rules functions
(`check_win`, `check_win_rows`, `check_draw`, `rotate_field_90deg`,
`on_mouse_clicked`, `switch_player`, `update`, `reset_game`) are translated
from the source.  Rust `Vec` becomes `List`; a panicking index access becomes
an `Option` read, and functions that can panic return `Option`.
-/

namespace TicTacToe

/-- `Sign` to represent the players (`enum Sign { X, O }`). -/
inductive Sign where
  | X : Sign
  | O : Sign
deriving DecidableEq, Repr

/-- The `Not` impl for `Sign`: `!X = O`, `!O = X`. -/
def Sign.not : Sign → Sign
  | .X => .O
  | .O => .X

/-- `struct Cell(Option<Sign>)`. -/
structure Cell where
  val : Option Sign
deriving DecidableEq, Repr

/-- `Cell::is_empty`: true if the cell holds `None`. -/
def Cell.is_empty (c : Cell) : Bool :=
  c.val.isNone

/-- `struct Field(Vec<Vec<Cell>>)`. -/
structure Field where
  cells : List (List Cell)
deriving DecidableEq, Repr

/-- `Field::empty(size)`: a `size × size` grid of empty cells. -/
def Field.empty (size : Nat) : Field :=
  ⟨(List.range size).map (fun _row => (List.range size).map (fun _col => Cell.mk none))⟩

/-- `Field::row_count`. -/
def Field.row_count (f : Field) : Nat :=
  f.cells.length

/-- `const FIELD_SIZE: usize = 3;` -/
def FIELD_SIZE : Nat := 3

/-- Read `m[i][j]`; `none` models the out-of-bounds panic of the Rust
indexing. -/
def getEntry (m : List (List Cell)) (i j : Nat) : Option Cell :=
  (m[i]?).bind (fun row => row[j]?)

/-- Read `field.0[i][j]` on a `Field`. -/
def cellAt (f : Field) (i j : Nat) : Option Cell :=
  getEntry f.cells i j

/-- Write `m[i][j] = c` (no-op when the row index is out of range, mirroring
that the Rust writes in scope are always in range). -/
def setEntry (m : List (List Cell)) (i j : Nat) (c : Cell) : List (List Cell) :=
  match m[i]? with
  | some row => m.set i (row.set j c)
  | none => m

/-- `std::mem::swap(&mut m[a][b], &mut m[c][d])`. -/
def swapEntries (m : List (List Cell)) (a b c d : Nat) : List (List Cell) :=
  match getEntry m a b, getEntry m c d with
  | some x, some y => setEntry (setEntry m a b y) c d x
  | _, _ => m

/-- `slice::windows(n)`: all contiguous windows of length `n` (empty when
`n` exceeds the length; the Rust `n = 0` panic case is never exercised,
`check_win_rows` always passes `FIELD_SIZE = 3`). -/
def windows (n : Nat) (xs : List (List Cell)) : List (List (List Cell)) :=
  if n = 0 ∨ xs.length < n then []
  else (List.range (xs.length - n + 1)).map (fun i => (xs.drop i).take n)

/-- `check_win_rows`: `field.0.windows(FIELD_SIZE).any(|row|
row.contains(&vec![Cell(Some(*player)); FIELD_SIZE]))`. -/
def check_win_rows (field : Field) (player : Sign) : Bool :=
  (windows FIELD_SIZE field.cells).any
    (fun w => w.contains (List.replicate FIELD_SIZE (Cell.mk (some player))))

/-- `rotate_field_90deg`: reverse the rows, then transpose in place with the
double swap loop `for i in 1..len { for j in 0..i { swap(m[j][i], m[i][j]) } }`. -/
def rotate_field_90deg (field : Field) : Field :=
  let m := field.cells.reverse
  ⟨(List.range' 1 (m.length - 1)).foldl
      (fun acc i => (List.range i).foldl (fun acc2 j => swapEntries acc2 j i i j) acc) m⟩

/-- `check_win`: row check, then the two diagonal checks guarded by
`if let Some(middle_sign) = field.0[1][1].0`, then the column check on the
rotated field.  `none` models a panic of one of the fixed index reads; the
`&&` chains short-circuit exactly as in Rust. -/
def check_win (field : Field) (player : Sign) : Option Bool :=
  if check_win_rows field player then some true else
  match cellAt field 1 1 with
  | none => none
  | some c11 =>
    let diagResult : Option Bool :=
      match c11.val with
      | none => some false
      | some middle_sign =>
        let d1 : Option Bool :=
          if middle_sign = player then
            (cellAt field 0 0).bind (fun c00 =>
              if c00 = c11 then (cellAt field 2 2).map (fun c22 => c11 == c22)
              else some false)
          else some false
        match d1 with
        | none => none
        | some true => some true
        | some false =>
          if middle_sign = player then
            (cellAt field 0 2).bind (fun c02 =>
              if c02 = c11 then (cellAt field 2 0).map (fun c20 => c11 == c20)
              else some false)
          else some false
    match diagResult with
    | none => none
    | some true => some true
    | some false => some (check_win_rows (rotate_field_90deg field) player)

/-- `check_draw`: false as soon as some cell is `None`, true otherwise. -/
def check_draw (field : Field) : Bool :=
  field.cells.all (fun row => row.all (fun cell => !cell.val.isNone))

/-- `switch_player`: `*current_player = !*current_player`. -/
def switch_player (current_player : Sign) : Sign :=
  current_player.not

/-- The game-relevant fields of `struct GameState` (`font` and the pixel
`field_rects` belong to the excluded presentation layer). -/
structure GameState where
  field : Field
  current_player : Sign
  has_won : Bool
deriving DecidableEq, Repr

/-- Outcome of a click, the spec's move outcome: `Placed` when the guarded
body of `on_mouse_clicked` ran, `IllegalMove` when the click was ignored. -/
inductive MoveOutcome where
  | Placed : MoveOutcome
  | IllegalMove : MoveOutcome
deriving DecidableEq, Repr

/-- `on_mouse_clicked`, at cell granularity: the pixel-rect containment test
has already resolved the click to cell `(row, col)`; if that cell is empty,
write the current player's sign there and switch the player, otherwise do
nothing. -/
def on_mouse_clicked (g : GameState) (row col : Nat) : GameState × MoveOutcome :=
  match cellAt g.field row col with
  | some cell =>
    if cell.is_empty then
      ({ g with
          field := ⟨setEntry g.field.cells row col (Cell.mk (some g.current_player))⟩,
          current_player := switch_player g.current_player },
       MoveOutcome.Placed)
    else (g, MoveOutcome.IllegalMove)
  | none => (g, MoveOutcome.IllegalMove)

/-- One move attempt as the event loop performs it: `main` dispatches
`MouseButtonDown` to `on_mouse_clicked` only `if !game_state.has_won`. -/
def apply_move (g : GameState) (row col : Nat) : GameState × MoveOutcome :=
  if g.has_won then (g, MoveOutcome.IllegalMove) else on_mouse_clicked g row col

/-- The end-of-game text drawn by `update`. -/
inductive EndText where
  | wonText : Sign → EndText
  | tieText : EndText
  | noText : EndText
deriving DecidableEq, Repr

/-- The win/draw decision of `update`: check `check_win` for
`!current_player` (the sign that just moved); on a win set `has_won` and
report the win text, otherwise report the tie text iff `check_draw` holds.
`none` models a `check_win` panic. -/
def update (g : GameState) : Option (GameState × EndText) :=
  match check_win g.field (Sign.not g.current_player) with
  | none => none
  | some true => some ({ g with has_won := true }, EndText.wonText (Sign.not g.current_player))
  | some false =>
    if check_draw g.field then some (g, EndText.tieText) else some (g, EndText.noText)

/-- `reset_game`, with the starting player abstracted as an input
(`get_random_player` is the only nondeterminism). -/
def reset_game (_g : GameState) (random_player : Sign) : GameState :=
  { field := Field.empty FIELD_SIZE,
    current_player := random_player,
    has_won := false }

/-- The square-shape invariant: `n` rows, each of length `n`. -/
def isSquare (f : Field) (n : Nat) : Prop :=
  f.cells.length = n ∧ ∀ row ∈ f.cells, row.length = n

instance (f : Field) (n : Nat) : Decidable (isSquare f n) := by
  unfold isSquare; infer_instance

/-- Modelled from the spec (refinement target for the column check):
"some column of the original board has all its cells occupied by `m`". -/
def spec_column_win (f : Field) (m : Sign) : Prop :=
  ∃ j < f.cells.length, ∀ i < f.cells.length, cellAt f i j = some (Cell.mk (some m))

instance (f : Field) (m : Sign) : Decidable (spec_column_win f m) := by
  unfold spec_column_win; infer_instance

/-! ### Shape bookkeeping for cell matrices -/

/-- Square shape of a raw cell matrix: the list of row lengths is `n` copies
of `n`. -/
def SqM (m : List (List Cell)) (n : Nat) : Prop :=
  m.map List.length = List.replicate n n

theorem isSquare_iff_sqM (f : Field) (n : Nat) : isSquare f n ↔ SqM f.cells n := by
  unfold isSquare SqM
  rw [List.eq_replicate_iff, List.length_map, List.forall_mem_map]

theorem SqM.len {m : List (List Cell)} {n : Nat} (h : SqM m n) : m.length = n := by
  have h1 := congrArg List.length h
  simpa using h1

theorem SqM.row_len {m : List (List Cell)} {n i : Nat} {row : List Cell}
    (h : SqM m n) (hrow : m[i]? = some row) : row.length = n := by
  have h1 : (m.map List.length)[i]? = some row.length := by
    rw [List.getElem?_map, hrow]; rfl
  rw [h, List.getElem?_replicate] at h1
  split at h1
  · exact (Option.some_inj.mp h1).symm
  · exact absurd h1 (by simp)

theorem getEntry_isSome {m : List (List Cell)} {n : Nat} (h : SqM m n)
    {i j : Nat} (hi : i < n) (hj : j < n) : ∃ c, getEntry m i j = some c := by
  have hiL : i < m.length := by rw [h.len]; exact hi
  have hrow : m[i]? = some m[i] := List.getElem?_eq_getElem hiL
  have hlen : (m[i]).length = n := h.row_len hrow
  have hjL : j < (m[i]).length := by rw [hlen]; exact hj
  refine ⟨(m[i])[j], ?_⟩
  simp [getEntry, hrow, List.getElem?_eq_getElem hjL]

/-! ### Reading after writing -/

theorem getEntry_setEntry (m : List (List Cell)) (a b : Nat) (c : Cell) (r s : Nat) :
    getEntry (setEntry m a b c) r s =
      if r = a ∧ s = b ∧ (getEntry m a b).isSome then some c else getEntry m r s := by
  unfold setEntry
  cases ha : m[a]? with
  | none =>
    have : getEntry m a b = none := by simp [getEntry, ha]
    simp [this]
  | some row =>
    have haL : a < m.length := by
      cases Nat.lt_or_ge a m.length with
      | inl h => exact h
      | inr h => rw [List.getElem?_eq_none h] at ha; cases ha
    by_cases hra : r = a
    · subst hra
      by_cases hsb : s = b
      · subst hsb
        by_cases hsL : s < row.length
        · have hmem : (getEntry m r s).isSome = true := by
            simp [getEntry, ha, List.getElem?_eq_getElem hsL]
          have hL : getEntry (m.set r (row.set s c)) r s = some c := by
            simp [getEntry, List.getElem?_set_self haL, List.getElem?_set_self hsL]
          rw [hL, if_pos ⟨rfl, rfl, hmem⟩]
        · have hnone : row[s]? = none := List.getElem?_eq_none (Nat.le_of_not_lt hsL)
          have hment : getEntry m r s = none := by simp [getEntry, ha, hnone]
          have hset : row.set s c = row := List.set_eq_of_length_le (Nat.le_of_not_lt hsL)
          have hL : getEntry (m.set r (row.set s c)) r s = none := by
            simp [getEntry, List.getElem?_set_self haL, hset, hnone]
          rw [hL]
          simp [hment]
      · have : getEntry (m.set r (row.set b c)) r s = row[s]? := by
          simp [getEntry, List.getElem?_set_self haL,
            List.getElem?_set_ne (fun h => hsb (h.symm))]
        rw [this]
        have : getEntry m r s = row[s]? := by simp [getEntry, ha]
        rw [this]
        simp [hsb]
    · have : getEntry (m.set a (row.set b c)) r s = getEntry m r s := by
        simp [getEntry, List.getElem?_set_ne (fun h => hra (h.symm))]
      rw [this]
      simp [hra]

theorem map_length_setEntry (m : List (List Cell)) (a b : Nat) (c : Cell) :
    (setEntry m a b c).map List.length = m.map List.length := by
  unfold setEntry
  cases ha : m[a]? with
  | none => rfl
  | some row =>
    apply List.ext_getElem?
    intro k
    by_cases hk : k = a
    · subst hk
      have haL : k < m.length := by
        cases Nat.lt_or_ge k m.length with
        | inl h => exact h
        | inr h => rw [List.getElem?_eq_none h] at ha; cases ha
      rw [List.map_set, List.getElem?_set_self (by simpa using haL)]
      rw [List.getElem?_map, ha]
      simp
    · rw [List.map_set, List.getElem?_set_ne (fun h => hk (h.symm))]

/-! ### Reading after swapping -/

theorem getEntry_swapEntries {m : List (List Cell)} {a b c d : Nat}
    (hab : (getEntry m a b).isSome) (hcd : (getEntry m c d).isSome)
    (hne : ¬(a = c ∧ b = d)) (r s : Nat) :
    getEntry (swapEntries m a b c d) r s =
      if r = a ∧ s = b then getEntry m c d
      else if r = c ∧ s = d then getEntry m a b
      else getEntry m r s := by
  obtain ⟨x, hx⟩ := Option.isSome_iff_exists.mp hab
  obtain ⟨y, hy⟩ := Option.isSome_iff_exists.mp hcd
  unfold swapEntries
  rw [hx, hy]
  have h1 := getEntry_setEntry m a b y
  have hcd1 : getEntry (setEntry m a b y) c d = getEntry m c d := by
    rw [h1 c d, if_neg]
    intro h
    exact hne ⟨h.1.symm, h.2.1.symm⟩
  rw [getEntry_setEntry, hcd1, hy]
  by_cases hrs2 : r = a ∧ s = b
  · have hnecd : ¬(r = c ∧ s = d ∧ (some y).isSome = true) := by
      intro h
      exact hne ⟨hrs2.1.symm.trans h.1, hrs2.2.symm.trans h.2.1⟩
    rw [if_neg hnecd, h1, if_pos ⟨hrs2.1, hrs2.2, hab⟩, if_pos hrs2]
  · by_cases hrs1 : r = c ∧ s = d
    · rw [if_pos ⟨hrs1.1, hrs1.2, rfl⟩, if_neg hrs2, if_pos hrs1]
    · have hne3 : ¬(r = c ∧ s = d ∧ (some y).isSome = true) := fun h => hrs1 ⟨h.1, h.2.1⟩
      rw [if_neg hne3, h1, if_neg (fun h => hrs2 ⟨h.1, h.2.1⟩), if_neg hrs2, if_neg hrs1]

theorem map_length_swapEntries (m : List (List Cell)) (a b c d : Nat) :
    (swapEntries m a b c d).map List.length = m.map List.length := by
  unfold swapEntries
  cases getEntry m a b with
  | none => rfl
  | some x =>
    cases getEntry m c d with
    | none => rfl
    | some y => rw [map_length_setEntry, map_length_setEntry]

theorem getEntry_isSome_true {m : List (List Cell)} {n : Nat} (h : SqM m n)
    {i j : Nat} (hi : i < n) (hj : j < n) : (getEntry m i j).isSome = true := by
  obtain ⟨c, hc⟩ := getEntry_isSome h hi hj
  rw [hc]; rfl

/-! ### The in-place transpose of `rotate_field_90deg` -/

/-- Entries of the matrix during the transpose loops: after the outer loop
has fully processed the rows before `i` and the inner loop at row `i` has
processed columns below `l`, position `(r, c)` holds the transposed entry
exactly on the already-visited region. -/
def sweepT (m : List (List Cell)) (i l r c : Nat) : Option Cell :=
  if (r < i ∧ c < i) ∨ (r = i ∧ c < l) ∨ (c = i ∧ r < l) then getEntry m c r
  else getEntry m r c

theorem inner_invariant (m : List (List Cell)) (n i : Nat) (hin : i < n)
    (hsq : SqM m n) (t : List (List Cell))
    (htm : t.map List.length = m.map List.length)
    (ht : ∀ r c, r < n → c < n → getEntry t r c = sweepT m i 0 r c)
    (l : Nat) (hl : l ≤ i) :
    ((List.range l).foldl (fun acc2 j => swapEntries acc2 j i i j) t).map List.length
        = m.map List.length ∧
    ∀ r c, r < n → c < n →
      getEntry ((List.range l).foldl (fun acc2 j => swapEntries acc2 j i i j) t) r c
        = sweepT m i l r c := by
  induction l with
  | zero => simpa using ⟨htm, ht⟩
  | succ l ih =>
    have hl' : l ≤ i := Nat.le_of_succ_le hl
    have hli : l < i := hl
    have hln : l < n := Nat.lt_trans hli hin
    obtain ⟨ihshape, ihentry⟩ := ih hl'
    have hsqs : SqM ((List.range l).foldl (fun acc2 j => swapEntries acc2 j i i j) t) n := by
      unfold SqM
      rw [ihshape]
      exact hsq
    have hsome1 := getEntry_isSome_true hsqs hln hin
    have hsome2 := getEntry_isSome_true hsqs hin hln
    have hne : ¬(l = i ∧ i = l) := fun hcontra => absurd hcontra.1 (Nat.ne_of_lt hli)
    rw [List.range_succ, List.foldl_append]
    simp only [List.foldl_cons, List.foldl_nil]
    constructor
    · rw [map_length_swapEntries]
      exact ihshape
    · intro r c hr hc
      rw [getEntry_swapEntries hsome1 hsome2 hne r c]
      by_cases h1 : r = l ∧ c = i
      · obtain ⟨rfl, rfl⟩ := h1
        rw [if_pos ⟨rfl, rfl⟩, ihentry c r hc hr]
        unfold sweepT
        split_ifs <;> first | rfl | (exfalso; omega)
      · rw [if_neg h1]
        by_cases h2 : r = i ∧ c = l
        · obtain ⟨rfl, rfl⟩ := h2
          rw [if_pos ⟨rfl, rfl⟩, ihentry c r hc hr]
          unfold sweepT
          split_ifs <;> first | rfl | (exfalso; omega)
        · rw [if_neg h2, ihentry r c hr hc]
          unfold sweepT
          split_ifs <;> first | rfl | (exfalso; omega)

/-- At the end of the inner loop at row `i`, the visited region is the full
square of side `i + 1`; on it the entry is the transposed one. -/
theorem sweepT_full (m : List (List Cell)) (i r c : Nat) (hr : r ≤ i) (hc : c ≤ i) :
    sweepT m i i r c = getEntry m c r := by
  unfold sweepT
  split_ifs with hA
  · rfl
  · have h1 : r = i := by omega
    have h2 : c = i := by omega
    subst h1; subst h2
    rfl

theorem outer_invariant (m : List (List Cell)) (n : Nat) (hsq : SqM m n)
    (k : Nat) (hk : k < n) :
    ((List.range' 1 k).foldl
        (fun acc i => (List.range i).foldl (fun acc2 j => swapEntries acc2 j i i j) acc)
        m).map List.length
      = m.map List.length ∧
    ∀ r c, r < n → c < n →
      getEntry ((List.range' 1 k).foldl
        (fun acc i => (List.range i).foldl (fun acc2 j => swapEntries acc2 j i i j) acc)
        m) r c
        = if r ≤ k ∧ c ≤ k then getEntry m c r else getEntry m r c := by
  induction k with
  | zero =>
    refine ⟨rfl, ?_⟩
    intro r c hr hc
    split_ifs with h
    · have hr0 : r = 0 := Nat.le_zero.mp h.1
      have hc0 : c = 0 := Nat.le_zero.mp h.2
      subst hr0; subst hc0; rfl
    · rfl
  | succ k ih =>
    have hk' : k < n := Nat.lt_of_succ_lt hk
    obtain ⟨ihshape, ihentry⟩ := ih hk'
    have hin : 1 + k < n := by omega
    rw [List.range'_1_concat, List.foldl_append]
    simp only [List.foldl_cons, List.foldl_nil]
    have hinner := inner_invariant m n (1 + k) hin hsq _ ihshape
      (fun r c hr hc => by
        rw [ihentry r c hr hc]
        unfold sweepT
        split_ifs <;> first | rfl | (exfalso; omega))
      (1 + k) (Nat.le_refl _)
    refine ⟨hinner.1, ?_⟩
    intro r c hr hc
    rw [hinner.2 r c hr hc]
    by_cases hQ : r ≤ k + 1 ∧ c ≤ k + 1
    · rw [if_pos hQ, sweepT_full m (1 + k) r c (by omega) (by omega)]
    · rw [if_neg hQ]
      unfold sweepT
      rw [if_neg (by omega)]

theorem sqM_rotate (f : Field) (n : Nat) (h : SqM f.cells n) :
    SqM (rotate_field_90deg f).cells n := by
  have hrev : SqM f.cells.reverse n := by
    unfold SqM
    rw [List.map_reverse, h, List.reverse_replicate]
  have hlen : f.cells.reverse.length = n := hrev.len
  cases n with
  | zero =>
    have hnil : f.cells.reverse = [] := List.eq_nil_of_length_eq_zero hlen
    have hnil' : f.cells = [] := by
      have := congrArg List.reverse hnil
      simpa using this
    unfold rotate_field_90deg SqM
    rw [hnil']
    rfl
  | succ n' =>
    unfold rotate_field_90deg SqM
    simp only [hlen]
    have houter := (outer_invariant f.cells.reverse (n' + 1) hrev n' (by omega)).1
    have hstep : n' + 1 - 1 = n' := by omega
    rw [hstep, houter]
    exact hrev

theorem cellAt_rotate (f : Field) (n : Nat) (h : isSquare f n) (r c : Nat)
    (hr : r < n) (hc : c < n) :
    cellAt (rotate_field_90deg f) r c = cellAt f (n - 1 - c) r := by
  rw [isSquare_iff_sqM] at h
  have hrev : SqM f.cells.reverse n := by
    unfold SqM
    rw [List.map_reverse, h, List.reverse_replicate]
  have hlen : f.cells.reverse.length = n := hrev.len
  unfold rotate_field_90deg cellAt
  simp only [hlen]
  have houter := (outer_invariant f.cells.reverse n hrev (n - 1) (by omega)).2 r c hr hc
  rw [houter, if_pos ⟨by omega, by omega⟩]
  unfold getEntry
  have hcL : c < f.cells.length := by rw [h.len]; exact hc
  rw [List.getElem?_reverse (by simpa using hcL), h.len]

theorem isSquare_rotate (f : Field) (n : Nat) (h : isSquare f n) :
    isSquare (rotate_field_90deg f) n := by
  rw [isSquare_iff_sqM] at h ⊢
  exact sqM_rotate f n h

/-- Cell-by-cell extensionality for square fields. -/
theorem field_ext {f g : Field} {n : Nat} (hf : isSquare f n) (hg : isSquare g n)
    (h : ∀ r c, r < n → c < n → cellAt f r c = cellAt g r c) : f = g := by
  have hf' := (isSquare_iff_sqM f n).mp hf
  have hg' := (isSquare_iff_sqM g n).mp hg
  cases f with | mk fc =>
  cases g with | mk gc =>
  have hfl : fc.length = n := hf'.len
  have hgl : gc.length = n := hg'.len
  congr 1
  apply List.ext_getElem?
  intro k
  by_cases hk : k < n
  · have hkf : k < fc.length := by rw [hf'.len]; exact hk
    have hkg : k < gc.length := by rw [hg'.len]; exact hk
    rw [List.getElem?_eq_getElem hkf, List.getElem?_eq_getElem hkg]
    have hrowf : (fc[k]).length = n := hf'.row_len (List.getElem?_eq_getElem hkf)
    have hrowg : (gc[k]).length = n := hg'.row_len (List.getElem?_eq_getElem hkg)
    congr 1
    apply List.ext_getElem?
    intro j
    by_cases hj : j < n
    · have h1 := h k j hk hj
      simp only [cellAt, getEntry, List.getElem?_eq_getElem hkf,
        List.getElem?_eq_getElem hkg, Option.bind_some] at h1
      exact h1
    · rw [List.getElem?_eq_none (by omega), List.getElem?_eq_none (by omega)]
  · rw [List.getElem?_eq_none (by omega), List.getElem?_eq_none (by omega)]

/-! ### Evaluating the row check on 3×3 boards -/

theorem cellAt_some (f : Field) (n : Nat) (h : isSquare f n) {i j : Nat}
    (hi : i < n) (hj : j < n) : ∃ c, cellAt f i j = some c :=
  getEntry_isSome ((isSquare_iff_sqM f n).mp h) hi hj

theorem windows_three (x y z : List Cell) : windows 3 [x, y, z] = [[x, y, z]] := rfl

theorem row_eq_replicate_iff (row : List Cell) (p : Sign) (hlen : row.length = 3) :
    row = List.replicate 3 (Cell.mk (some p)) ↔
      ∀ c, c < 3 → row[c]? = some (Cell.mk (some p)) := by
  constructor
  · intro h c hc
    rw [h, List.getElem?_replicate, if_pos hc]
  · intro h
    apply List.ext_getElem?
    intro c
    by_cases hc : c < 3
    · rw [h c hc, List.getElem?_replicate, if_pos hc]
    · rw [List.getElem?_eq_none (by omega),
        List.getElem?_eq_none (by rw [List.length_replicate]; omega)]

/-- On a 3×3 board the windowed row scan succeeds exactly when some row is
entirely the player's mark. -/
theorem check_win_rows_three_iff (g : Field) (p : Sign) (h : isSquare g 3) :
    check_win_rows g p = true ↔
      ∃ r, r < 3 ∧ ∀ c, c < 3 → cellAt g r c = some (Cell.mk (some p)) := by
  obtain ⟨hlen, hrows⟩ := h
  cases g with | mk cells =>
  simp only at hlen hrows
  obtain ⟨r0, r1, r2, hc⟩ := List.length_eq_three.mp hlen
  subst hc
  have h0 : r0.length = 3 := hrows r0 (by simp)
  have h1 : r1.length = 3 := hrows r1 (by simp)
  have h2 : r2.length = 3 := hrows r2 (by simp)
  have hLHS : check_win_rows ⟨[r0, r1, r2]⟩ p = true ↔
      (List.replicate 3 (Cell.mk (some p)) = r0 ∨
       List.replicate 3 (Cell.mk (some p)) = r1 ∨
       List.replicate 3 (Cell.mk (some p)) = r2) := by
    unfold check_win_rows FIELD_SIZE
    rw [windows_three]
    simp [List.contains_cons, beq_iff_eq]
  rw [hLHS]
  constructor
  · rintro (hr | hr | hr)
    · exact ⟨0, by omega, fun c hc2 => (row_eq_replicate_iff r0 p h0).mp hr.symm c hc2⟩
    · exact ⟨1, by omega, fun c hc2 => (row_eq_replicate_iff r1 p h1).mp hr.symm c hc2⟩
    · exact ⟨2, by omega, fun c hc2 => (row_eq_replicate_iff r2 p h2).mp hr.symm c hc2⟩
  · rintro ⟨r, hr, hcol⟩
    interval_cases r
    · exact Or.inl ((row_eq_replicate_iff r0 p h0).mpr (fun c hc2 => hcol c hc2)).symm
    · exact Or.inr (Or.inl ((row_eq_replicate_iff r1 p h1).mpr (fun c hc2 => hcol c hc2)).symm)
    · exact Or.inr (Or.inr ((row_eq_replicate_iff r2 p h2).mpr (fun c hc2 => hcol c hc2)).symm)

/-! ### A closed evaluation of `check_win` on boards where the fixed reads
are in bounds -/

theorem check_win_eval (f : Field) (p : Sign)
    (c11 c00 c22 c02 c20 : Cell)
    (h11 : cellAt f 1 1 = some c11) (h00 : cellAt f 0 0 = some c00)
    (h22 : cellAt f 2 2 = some c22) (h02 : cellAt f 0 2 = some c02)
    (h20 : cellAt f 2 0 = some c20) :
    check_win f p = some (
      check_win_rows f p ||
      (match c11.val with
       | some mid =>
         (decide (mid = p) && (c00 == c11) && (c11 == c22)) ||
         (decide (mid = p) && (c02 == c11) && (c11 == c20))
       | none => false) ||
      check_win_rows (rotate_field_90deg f) p) := by
  unfold check_win
  by_cases hrow : check_win_rows f p = true
  · rw [if_pos hrow, hrow]
    simp
  · rw [if_neg hrow]
    rw [Bool.not_eq_true] at hrow
    rw [hrow, h11]
    simp only [Bool.false_or]
    cases hv : c11.val with
    | none => simp
    | some mid =>
      by_cases hmp : mid = p
      · simp only [if_pos hmp, h00, Option.bind_some, hmp]
        by_cases he1 : c00 = c11
        · simp only [if_pos he1, h22, Option.map_some']
          cases hbe : (c11 == c22) with
          | true => simp [he1, hbe]
          | false =>
            simp only [h02, Option.bind_some]
            by_cases he2 : c02 = c11
            · simp only [if_pos he2, h20, Option.map_some']
              cases hbe2 : (c11 == c20) with
              | true => simp [he1, he2, hbe, hbe2]
              | false => simp [he1, he2, hbe, hbe2]
            · simp [he1, he2, hbe]
        · simp only [if_neg he1, h02, Option.bind_some]
          by_cases he2 : c02 = c11
          · simp only [if_pos he2, h20, Option.map_some']
            cases hbe2 : (c11 == c20) with
            | true => simp [he1, he2, hbe2]
            | false => simp [he1, he2, hbe2]
          · simp [he1, he2]
      · simp [if_neg hmp, hmp]

/-! ## The claims -/

/-- C1 (amended): on a square board of side length 3 (the game's
`FIELD_SIZE`), if some row has all 3 cells occupied by mark `m` then
`check_win` for `m` returns true.  The original "any N≥3" fails because
`check_win_rows` compares the rows against a pattern of fixed length
`FIELD_SIZE = 3`; see the counterexample. -/
theorem claim_C1 (f : Field) (m : Sign) (h : isSquare f 3) (i : Nat) (hi : i < 3)
    (hrow : ∀ j, j < 3 → cellAt f i j = some (Cell.mk (some m))) :
    check_win f m = some true := by
  have hrows : check_win_rows f m = true :=
    (check_win_rows_three_iff f m h).mpr ⟨i, hi, hrow⟩
  unfold check_win
  rw [if_pos hrows]

/-- C1 witness: the spec's row-win board `[[X,X,X],[_,O,_],[_,_,O]]`. -/
theorem claim_C1_witness :
    check_win (Field.mk [[Cell.mk (some Sign.X), Cell.mk (some Sign.X), Cell.mk (some Sign.X)],
      [Cell.mk none, Cell.mk (some Sign.O), Cell.mk none],
      [Cell.mk none, Cell.mk none, Cell.mk (some Sign.O)]]) Sign.X = some true :=
  claim_C1 _ Sign.X (by decide) 0 (by decide) (by decide)

/-- C1 counterexample: a 4×4 board (side length N = 4 ≥ 3) whose row 0 holds
four `X`s, yet `check_win` returns `some false`: the windowed row check only
ever matches rows equal to a length-3 vector. -/
theorem claim_C1_counterexample :
    isSquare (Field.mk [[Cell.mk (some Sign.X), Cell.mk (some Sign.X), Cell.mk (some Sign.X), Cell.mk (some Sign.X)],
      [Cell.mk none, Cell.mk none, Cell.mk none, Cell.mk none],
      [Cell.mk none, Cell.mk none, Cell.mk none, Cell.mk none],
      [Cell.mk none, Cell.mk none, Cell.mk none, Cell.mk none]]) 4 ∧
    (∀ j, j < 4 → cellAt (Field.mk [[Cell.mk (some Sign.X), Cell.mk (some Sign.X), Cell.mk (some Sign.X), Cell.mk (some Sign.X)],
      [Cell.mk none, Cell.mk none, Cell.mk none, Cell.mk none],
      [Cell.mk none, Cell.mk none, Cell.mk none, Cell.mk none],
      [Cell.mk none, Cell.mk none, Cell.mk none, Cell.mk none]]) 0 j = some (Cell.mk (some Sign.X))) ∧
    check_win (Field.mk [[Cell.mk (some Sign.X), Cell.mk (some Sign.X), Cell.mk (some Sign.X), Cell.mk (some Sign.X)],
      [Cell.mk none, Cell.mk none, Cell.mk none, Cell.mk none],
      [Cell.mk none, Cell.mk none, Cell.mk none, Cell.mk none],
      [Cell.mk none, Cell.mk none, Cell.mk none, Cell.mk none]]) Sign.X = some false := by
  decide

/-- C2 (amended): on a square board of side N ≥ 3, a full main diagonal of
`m` makes `check_win` return true (the code in fact only inspects
(0,0),(1,1),(2,2)); a full anti-diagonal of `m` makes `check_win` return
true when N = 3.  The original claim's anti-diagonal part fails for N > 3,
because the check inspects the fixed cells (0,2),(1,1),(2,0); see the
counterexample. -/
theorem claim_C2 (f : Field) (n : Nat) (m : Sign) (h : isSquare f n) (hn : 3 ≤ n) :
    ((∀ i, i < n → cellAt f i i = some (Cell.mk (some m))) → check_win f m = some true) ∧
    (n = 3 → (∀ i, i < n → cellAt f i (n - 1 - i) = some (Cell.mk (some m))) →
      check_win f m = some true) := by
  obtain ⟨c11x, h11x⟩ := cellAt_some f n h (show 1 < n by omega) (show 1 < n by omega)
  obtain ⟨c00x, h00x⟩ := cellAt_some f n h (show 0 < n by omega) (show 0 < n by omega)
  obtain ⟨c22x, h22x⟩ := cellAt_some f n h (show 2 < n by omega) (show 2 < n by omega)
  obtain ⟨c02x, h02x⟩ := cellAt_some f n h (show 0 < n by omega) (show 2 < n by omega)
  obtain ⟨c20x, h20x⟩ := cellAt_some f n h (show 2 < n by omega) (show 0 < n by omega)
  constructor
  · intro hdiag
    have e11 : c11x = Cell.mk (some m) :=
      Option.some_inj.mp (h11x.symm.trans (hdiag 1 (by omega)))
    have e00 : c00x = Cell.mk (some m) :=
      Option.some_inj.mp (h00x.symm.trans (hdiag 0 (by omega)))
    have e22 : c22x = Cell.mk (some m) :=
      Option.some_inj.mp (h22x.symm.trans (hdiag 2 (by omega)))
    rw [check_win_eval f m c11x c00x c22x c02x c20x h11x h00x h22x h02x h20x]
    subst e11; subst e00; subst e22
    simp
  · intro hn3 hanti
    subst hn3
    have e11 : c11x = Cell.mk (some m) :=
      Option.some_inj.mp (h11x.symm.trans (hanti 1 (by omega)))
    have e02 : c02x = Cell.mk (some m) :=
      Option.some_inj.mp (h02x.symm.trans (hanti 0 (by omega)))
    have e20 : c20x = Cell.mk (some m) :=
      Option.some_inj.mp (h20x.symm.trans (hanti 2 (by omega)))
    rw [check_win_eval f m c11x c00x c22x c02x c20x h11x h00x h22x h02x h20x]
    subst e11; subst e02; subst e20
    simp

/-- C2 witness: a 4×4 full main diagonal of `X` is detected, and a 3×3 full
anti-diagonal of `X` is detected. -/
theorem claim_C2_witness :
    check_win (Field.mk [[Cell.mk (some Sign.X), Cell.mk none, Cell.mk none, Cell.mk none],
      [Cell.mk none, Cell.mk (some Sign.X), Cell.mk none, Cell.mk none],
      [Cell.mk none, Cell.mk none, Cell.mk (some Sign.X), Cell.mk none],
      [Cell.mk none, Cell.mk none, Cell.mk none, Cell.mk (some Sign.X)]]) Sign.X = some true ∧
    check_win (Field.mk [[Cell.mk none, Cell.mk none, Cell.mk (some Sign.X)],
      [Cell.mk none, Cell.mk (some Sign.X), Cell.mk none],
      [Cell.mk (some Sign.X), Cell.mk none, Cell.mk none]]) Sign.X = some true :=
  ⟨(claim_C2 _ 4 Sign.X (by decide) (by decide)).1 (by decide),
   (claim_C2 _ 3 Sign.X (by decide) (by decide)).2 rfl (by decide)⟩

/-- C2 counterexample: a 4×4 board whose full anti-diagonal holds `X`
(cells (i, 3-i)), yet `check_win` returns `some false`. -/
theorem claim_C2_counterexample :
    isSquare (Field.mk [[Cell.mk none, Cell.mk none, Cell.mk none, Cell.mk (some Sign.X)],
      [Cell.mk none, Cell.mk none, Cell.mk (some Sign.X), Cell.mk none],
      [Cell.mk none, Cell.mk (some Sign.X), Cell.mk none, Cell.mk none],
      [Cell.mk (some Sign.X), Cell.mk none, Cell.mk none, Cell.mk none]]) 4 ∧
    (∀ i, i < 4 → cellAt (Field.mk [[Cell.mk none, Cell.mk none, Cell.mk none, Cell.mk (some Sign.X)],
      [Cell.mk none, Cell.mk none, Cell.mk (some Sign.X), Cell.mk none],
      [Cell.mk none, Cell.mk (some Sign.X), Cell.mk none, Cell.mk none],
      [Cell.mk (some Sign.X), Cell.mk none, Cell.mk none, Cell.mk none]]) i (4 - 1 - i)
        = some (Cell.mk (some Sign.X))) ∧
    check_win (Field.mk [[Cell.mk none, Cell.mk none, Cell.mk none, Cell.mk (some Sign.X)],
      [Cell.mk none, Cell.mk none, Cell.mk (some Sign.X), Cell.mk none],
      [Cell.mk none, Cell.mk (some Sign.X), Cell.mk none, Cell.mk none],
      [Cell.mk (some Sign.X), Cell.mk none, Cell.mk none, Cell.mk none]]) Sign.X = some false := by
  decide

/-- C3 (amended): on a square board of side length 3, re-running the row
check on the board rotated 90° clockwise returns true exactly when some
column of the original board has all its cells occupied by `m`.  The
original "every square board" fails for N > 3 (the row check's fixed
length-3 pattern never matches length-N rows); see the counterexample. -/
theorem claim_C3 (f : Field) (m : Sign) (h : isSquare f 3) :
    check_win_rows (rotate_field_90deg f) m = true ↔ spec_column_win f m := by
  rw [check_win_rows_three_iff _ m (isSquare_rotate f 3 h)]
  unfold spec_column_win
  rw [h.1]
  constructor
  · rintro ⟨r, hr, hcol⟩
    refine ⟨r, hr, ?_⟩
    intro i hi
    have hx := hcol (2 - i) (by omega)
    rw [cellAt_rotate f 3 h r (2 - i) hr (by omega)] at hx
    have he : 3 - 1 - (2 - i) = i := by omega
    rw [he] at hx
    exact hx
  · rintro ⟨j, hj, hcol⟩
    refine ⟨j, hj, ?_⟩
    intro c hc
    rw [cellAt_rotate f 3 h j c hj hc]
    exact hcol (3 - 1 - c) (by omega)

/-- C3 witness: the spec's column-win board `[[X,O,_],[X,O,_],[X,_,O]]`
(left column of `X`) makes the rotated row scan succeed. -/
theorem claim_C3_witness :
    check_win_rows (rotate_field_90deg (Field.mk
      [[Cell.mk (some Sign.X), Cell.mk (some Sign.O), Cell.mk none],
       [Cell.mk (some Sign.X), Cell.mk (some Sign.O), Cell.mk none],
       [Cell.mk (some Sign.X), Cell.mk none, Cell.mk (some Sign.O)]])) Sign.X = true :=
  (claim_C3 _ Sign.X (by decide)).mpr (by decide)

/-- C3 counterexample: a 4×4 board whose column 0 is four `X`s: the column
is fully occupied by `X` but the row check on the rotated board is false. -/
theorem claim_C3_counterexample :
    spec_column_win (Field.mk [[Cell.mk (some Sign.X), Cell.mk none, Cell.mk none, Cell.mk none],
      [Cell.mk (some Sign.X), Cell.mk none, Cell.mk none, Cell.mk none],
      [Cell.mk (some Sign.X), Cell.mk none, Cell.mk none, Cell.mk none],
      [Cell.mk (some Sign.X), Cell.mk none, Cell.mk none, Cell.mk none]]) Sign.X ∧
    check_win_rows (rotate_field_90deg (Field.mk [[Cell.mk (some Sign.X), Cell.mk none, Cell.mk none, Cell.mk none],
      [Cell.mk (some Sign.X), Cell.mk none, Cell.mk none, Cell.mk none],
      [Cell.mk (some Sign.X), Cell.mk none, Cell.mk none, Cell.mk none],
      [Cell.mk (some Sign.X), Cell.mk none, Cell.mk none, Cell.mk none]])) Sign.X = false := by
  decide

/-- C4 (confirmed): `update` reports the tie text only when the board is
full and `check_win` for the mark that just moved (`!current_player`)
returned false; whenever that `check_win` returns true the outcome is the
win text (and `has_won` is set), never the tie text — the win check is the
first branch of the if/else-if. -/
theorem claim_C4 (g : GameState) :
    (∀ g' : GameState, update g = some (g', EndText.tieText) →
        check_draw g.field = true ∧
        check_win g.field (Sign.not g.current_player) = some false) ∧
    (check_win g.field (Sign.not g.current_player) = some true →
        update g = some ({ g with has_won := true },
          EndText.wonText (Sign.not g.current_player))) := by
  constructor
  · intro g' hup
    unfold update at hup
    cases hcw : check_win g.field (Sign.not g.current_player) with
    | none => rw [hcw] at hup; cases hup
    | some b =>
      cases b with
      | true => rw [hcw] at hup; simp at hup
      | false =>
        rw [hcw] at hup
        by_cases hd : check_draw g.field = true
        · exact ⟨hd, rfl⟩
        · rw [if_neg hd] at hup
          simp at hup
  · intro hcw
    unfold update
    rw [hcw]

/-- C4 witness: a full drawn board is reported as a tie, and a full board
that also completes a line for the mover is reported as won. -/
theorem claim_C4_witness :
    (check_draw (Field.mk [[Cell.mk (some Sign.X), Cell.mk (some Sign.X), Cell.mk (some Sign.O)],
        [Cell.mk (some Sign.O), Cell.mk (some Sign.O), Cell.mk (some Sign.X)],
        [Cell.mk (some Sign.X), Cell.mk (some Sign.O), Cell.mk (some Sign.X)]]) = true ∧
      check_win (Field.mk [[Cell.mk (some Sign.X), Cell.mk (some Sign.X), Cell.mk (some Sign.O)],
        [Cell.mk (some Sign.O), Cell.mk (some Sign.O), Cell.mk (some Sign.X)],
        [Cell.mk (some Sign.X), Cell.mk (some Sign.O), Cell.mk (some Sign.X)]])
        (Sign.not Sign.X) = some false) ∧
    update (GameState.mk (Field.mk [[Cell.mk (some Sign.X), Cell.mk (some Sign.X), Cell.mk (some Sign.X)],
        [Cell.mk (some Sign.O), Cell.mk (some Sign.O), Cell.mk (some Sign.X)],
        [Cell.mk (some Sign.X), Cell.mk (some Sign.O), Cell.mk (some Sign.O)]]) Sign.O false)
      = some (GameState.mk (Field.mk [[Cell.mk (some Sign.X), Cell.mk (some Sign.X), Cell.mk (some Sign.X)],
        [Cell.mk (some Sign.O), Cell.mk (some Sign.O), Cell.mk (some Sign.X)],
        [Cell.mk (some Sign.X), Cell.mk (some Sign.O), Cell.mk (some Sign.O)]]) Sign.O true,
        EndText.wonText Sign.X) :=
  ⟨(claim_C4 (GameState.mk (Field.mk [[Cell.mk (some Sign.X), Cell.mk (some Sign.X), Cell.mk (some Sign.O)],
        [Cell.mk (some Sign.O), Cell.mk (some Sign.O), Cell.mk (some Sign.X)],
        [Cell.mk (some Sign.X), Cell.mk (some Sign.O), Cell.mk (some Sign.X)]]) Sign.X false)).1
      (GameState.mk (Field.mk [[Cell.mk (some Sign.X), Cell.mk (some Sign.X), Cell.mk (some Sign.O)],
        [Cell.mk (some Sign.O), Cell.mk (some Sign.O), Cell.mk (some Sign.X)],
        [Cell.mk (some Sign.X), Cell.mk (some Sign.O), Cell.mk (some Sign.X)]]) Sign.X false)
      (by decide),
   (claim_C4 (GameState.mk (Field.mk [[Cell.mk (some Sign.X), Cell.mk (some Sign.X), Cell.mk (some Sign.X)],
        [Cell.mk (some Sign.O), Cell.mk (some Sign.O), Cell.mk (some Sign.X)],
        [Cell.mk (some Sign.X), Cell.mk (some Sign.O), Cell.mk (some Sign.O)]]) Sign.O false)).2
      (by decide)⟩

/-- C5 (confirmed): `rotate_field_90deg` is the 90° clockwise rotation —
the cell at row `i`, column `j` of a square board of any side `n` appears
at row `j`, column `n-1-i` of the rotated board, odd sizes included. -/
theorem claim_C5 (f : Field) (n : Nat) (h : isSquare f n) (i j : Nat)
    (hi : i < n) (hj : j < n) :
    cellAt (rotate_field_90deg f) j (n - 1 - i) = cellAt f i j := by
  rw [cellAt_rotate f n h j (n - 1 - i) hj (by omega)]
  have he : n - 1 - (n - 1 - i) = i := by omega
  rw [he]

/-- C5 witness: on a 3×3 board, cell (0,1) moves to (1,2), and the centre
cell (1,1) of the odd-sized board maps to itself. -/
theorem claim_C5_witness :
    cellAt (rotate_field_90deg (Field.mk [[Cell.mk (some Sign.X), Cell.mk (some Sign.O), Cell.mk none],
      [Cell.mk none, Cell.mk (some Sign.X), Cell.mk none],
      [Cell.mk none, Cell.mk none, Cell.mk (some Sign.O)]])) 1 2
      = cellAt (Field.mk [[Cell.mk (some Sign.X), Cell.mk (some Sign.O), Cell.mk none],
      [Cell.mk none, Cell.mk (some Sign.X), Cell.mk none],
      [Cell.mk none, Cell.mk none, Cell.mk (some Sign.O)]]) 0 1 ∧
    cellAt (rotate_field_90deg (Field.mk [[Cell.mk (some Sign.X), Cell.mk (some Sign.O), Cell.mk none],
      [Cell.mk none, Cell.mk (some Sign.X), Cell.mk none],
      [Cell.mk none, Cell.mk none, Cell.mk (some Sign.O)]])) 1 1
      = cellAt (Field.mk [[Cell.mk (some Sign.X), Cell.mk (some Sign.O), Cell.mk none],
      [Cell.mk none, Cell.mk (some Sign.X), Cell.mk none],
      [Cell.mk none, Cell.mk none, Cell.mk (some Sign.O)]]) 1 1 :=
  ⟨claim_C5 _ 3 (by decide) 0 1 (by decide) (by decide),
   claim_C5 _ 3 (by decide) 1 1 (by decide) (by decide)⟩

/-- C6 (confirmed): four applications of `rotate_field_90deg` to any square
board give back the original board, cell by cell. -/
theorem claim_C6 (f : Field) (n : Nat) (h : isSquare f n) :
    rotate_field_90deg (rotate_field_90deg (rotate_field_90deg (rotate_field_90deg f))) = f := by
  have h1 : isSquare (rotate_field_90deg f) n := isSquare_rotate f n h
  have h2 := isSquare_rotate _ n h1
  have h3 := isSquare_rotate _ n h2
  have h4 := isSquare_rotate _ n h3
  apply field_ext h4 h
  intro r c hr hc
  rw [cellAt_rotate _ n h3 r c hr hc]
  rw [cellAt_rotate _ n h2 (n - 1 - c) r (by omega) hr]
  rw [cellAt_rotate _ n h1 (n - 1 - r) (n - 1 - c) (by omega) (by omega)]
  rw [cellAt_rotate f n h (n - 1 - (n - 1 - c)) (n - 1 - r) (by omega) (by omega)]
  have e1 : n - 1 - (n - 1 - r) = r := by omega
  have e2 : n - 1 - (n - 1 - c) = c := by omega
  rw [e2, e1]

/-- C6 witness: a concrete asymmetric 3×3 board returns to itself after
four rotations. -/
theorem claim_C6_witness :
    rotate_field_90deg (rotate_field_90deg (rotate_field_90deg (rotate_field_90deg
      (Field.mk [[Cell.mk (some Sign.X), Cell.mk (some Sign.O), Cell.mk none],
        [Cell.mk none, Cell.mk (some Sign.X), Cell.mk (some Sign.O)],
        [Cell.mk (some Sign.O), Cell.mk none, Cell.mk none]]))))
      = Field.mk [[Cell.mk (some Sign.X), Cell.mk (some Sign.O), Cell.mk none],
        [Cell.mk none, Cell.mk (some Sign.X), Cell.mk (some Sign.O)],
        [Cell.mk (some Sign.O), Cell.mk none, Cell.mk none]] :=
  claim_C6 _ 3 (by decide)

/-- Evaluating `on_mouse_clicked` on an empty target cell. -/
theorem on_mouse_clicked_empty (g : GameState) (row col : Nat) (cell : Cell)
    (hc : cellAt g.field row col = some cell) (he : cell.is_empty = true) :
    on_mouse_clicked g row col =
      ({ g with
          field := Field.mk (setEntry g.field.cells row col (Cell.mk (some g.current_player))),
          current_player := switch_player g.current_player }, MoveOutcome.Placed) := by
  unfold on_mouse_clicked
  rw [hc]
  exact if_pos he

/-- Evaluating `on_mouse_clicked` on an occupied target cell. -/
theorem on_mouse_clicked_occupied (g : GameState) (row col : Nat) (cell : Cell)
    (hc : cellAt g.field row col = some cell) (he : cell.is_empty = false) :
    on_mouse_clicked g row col = (g, MoveOutcome.IllegalMove) := by
  unfold on_mouse_clicked
  rw [hc]
  exact if_neg (by simp [he])

/-- Evaluating `on_mouse_clicked` when the click resolves to no cell. -/
theorem on_mouse_clicked_oob (g : GameState) (row col : Nat)
    (hc : cellAt g.field row col = none) :
    on_mouse_clicked g row col = (g, MoveOutcome.IllegalMove) := by
  unfold on_mouse_clicked
  rw [hc]

/-- Every cell of a board on which `check_draw` holds is occupied. -/
theorem occupied_of_check_draw (f : Field) (h : check_draw f = true)
    {r c : Nat} {cell : Cell} (hc : cellAt f r c = some cell) :
    cell.is_empty = false := by
  unfold check_draw at h
  rw [List.all_eq_true] at h
  unfold cellAt getEntry at hc
  cases hrow : f.cells[r]? with
  | none => rw [hrow] at hc; cases hc
  | some row =>
    rw [hrow] at hc
    simp at hc
    have hall := h row (List.getElem?_mem hrow)
    rw [List.all_eq_true] at hall
    have hx := hall cell (List.getElem?_mem hc)
    unfold Cell.is_empty
    simpa using hx

/-- C7 (confirmed): a move aimed at an already-occupied cell is rejected:
the outcome is `IllegalMove` and the returned state is exactly the input
state — board, current player and `has_won` status unchanged. -/
theorem claim_C7 (g : GameState) (row col : Nat) (s : Sign)
    (h : cellAt g.field row col = some (Cell.mk (some s))) :
    apply_move g row col = (g, MoveOutcome.IllegalMove) := by
  unfold apply_move
  by_cases hw : g.has_won = true
  · rw [if_pos hw]
  · rw [if_neg hw]
    exact on_mouse_clicked_occupied g row col (Cell.mk (some s)) h rfl

/-- C7 witness: clicking the occupied centre cell changes nothing. -/
theorem claim_C7_witness :
    apply_move (GameState.mk (Field.mk [[Cell.mk none, Cell.mk none, Cell.mk none],
      [Cell.mk none, Cell.mk (some Sign.X), Cell.mk none],
      [Cell.mk none, Cell.mk none, Cell.mk none]]) Sign.O false) 1 1
    = (GameState.mk (Field.mk [[Cell.mk none, Cell.mk none, Cell.mk none],
      [Cell.mk none, Cell.mk (some Sign.X), Cell.mk none],
      [Cell.mk none, Cell.mk none, Cell.mk none]]) Sign.O false, MoveOutcome.IllegalMove) :=
  claim_C7 _ 1 1 Sign.X (by decide)

/-- C8 (confirmed): in a terminal state — `has_won` set (the event loop's
guard) or a full board (`check_draw`, in which case every cell is occupied)
— every move attempt returns `IllegalMove` with the state unchanged, and
hence any sequence of move attempts leaves the state unchanged (until an
explicit reset, which is the only other transition). -/
theorem claim_C8 (g : GameState)
    (hterm : g.has_won = true ∨ check_draw g.field = true) :
    (∀ row col, apply_move g row col = (g, MoveOutcome.IllegalMove)) ∧
    (∀ moves : List (Nat × Nat),
      moves.foldl (fun s rc => (apply_move s rc.1 rc.2).1) g = g) := by
  have hstep : ∀ row col, apply_move g row col = (g, MoveOutcome.IllegalMove) := by
    intro row col
    by_cases hw : g.has_won = true
    · unfold apply_move
      rw [if_pos hw]
    · have hd : check_draw g.field = true := hterm.resolve_left hw
      unfold apply_move
      rw [if_neg hw]
      cases hc : cellAt g.field row col with
      | none => exact on_mouse_clicked_oob g row col hc
      | some cell =>
        exact on_mouse_clicked_occupied g row col cell hc
          (occupied_of_check_draw g.field hd hc)
  refine ⟨hstep, ?_⟩
  intro moves
  induction moves with
  | nil => rfl
  | cons rc ms ih =>
    simp only [List.foldl_cons, hstep rc.1 rc.2]
    exact ih

/-- C8 witness: in a won state, a single attempt and a two-attempt sequence
both leave the state unchanged. -/
theorem claim_C8_witness :
    apply_move (GameState.mk (Field.mk [[Cell.mk (some Sign.X), Cell.mk (some Sign.X), Cell.mk (some Sign.X)],
      [Cell.mk none, Cell.mk (some Sign.O), Cell.mk none],
      [Cell.mk none, Cell.mk none, Cell.mk (some Sign.O)]]) Sign.O true) 1 0
    = (GameState.mk (Field.mk [[Cell.mk (some Sign.X), Cell.mk (some Sign.X), Cell.mk (some Sign.X)],
      [Cell.mk none, Cell.mk (some Sign.O), Cell.mk none],
      [Cell.mk none, Cell.mk none, Cell.mk (some Sign.O)]]) Sign.O true, MoveOutcome.IllegalMove) ∧
    [((1 : Nat), (0 : Nat)), (2, 1)].foldl (fun s rc => (apply_move s rc.1 rc.2).1)
      (GameState.mk (Field.mk [[Cell.mk (some Sign.X), Cell.mk (some Sign.X), Cell.mk (some Sign.X)],
      [Cell.mk none, Cell.mk (some Sign.O), Cell.mk none],
      [Cell.mk none, Cell.mk none, Cell.mk (some Sign.O)]]) Sign.O true)
    = GameState.mk (Field.mk [[Cell.mk (some Sign.X), Cell.mk (some Sign.X), Cell.mk (some Sign.X)],
      [Cell.mk none, Cell.mk (some Sign.O), Cell.mk none],
      [Cell.mk none, Cell.mk none, Cell.mk (some Sign.O)]]) Sign.O true :=
  ⟨(claim_C8 _ (Or.inl rfl)).1 1 0, (claim_C8 _ (Or.inl rfl)).2 [(1, 0), (2, 1)]⟩

/-- C9 (confirmed): each successful placement toggles the current player
with `!` (the `Not` impl on `Sign`), so two consecutive successful
placements are made by different marks. -/
theorem claim_C9 (g g1 g2 : GameState) (r c r2 c2 : Nat)
    (h1 : apply_move g r c = (g1, MoveOutcome.Placed))
    (h2 : apply_move g1 r2 c2 = (g2, MoveOutcome.Placed)) :
    g1.current_player = Sign.not g.current_player ∧
    g2.current_player = Sign.not g1.current_player ∧
    g1.current_player ≠ g.current_player := by
  have key : ∀ (a b : GameState) (x y : Nat),
      apply_move a x y = (b, MoveOutcome.Placed) →
      b.current_player = Sign.not a.current_player := by
    intro a b x y hab
    unfold apply_move at hab
    by_cases hw : a.has_won = true
    · rw [if_pos hw] at hab
      simp at hab
    · rw [if_neg hw] at hab
      cases hc : cellAt a.field x y with
      | none =>
        rw [on_mouse_clicked_oob a x y hc] at hab
        simp at hab
      | some cell =>
        cases he : cell.is_empty with
        | false =>
          rw [on_mouse_clicked_occupied a x y cell hc he] at hab
          simp at hab
        | true =>
          rw [on_mouse_clicked_empty a x y cell hc he] at hab
          have hb := congrArg Prod.fst hab
          simp at hb
          rw [← hb]
          rfl
  have k1 := key g g1 r c h1
  have k2 := key g1 g2 r2 c2 h2
  refine ⟨k1, k2, ?_⟩
  rw [k1]
  cases g.current_player <;> decide

/-- C9 witness: from an empty board with `X` to move, placing at (0,0) and
then at (0,1) toggles the player each time. -/
theorem claim_C9_witness :
    (GameState.mk (Field.mk [[Cell.mk (some Sign.X), Cell.mk none, Cell.mk none],
      [Cell.mk none, Cell.mk none, Cell.mk none],
      [Cell.mk none, Cell.mk none, Cell.mk none]]) Sign.O false).current_player
      = Sign.not (GameState.mk (Field.empty 3) Sign.X false).current_player ∧
    (GameState.mk (Field.mk [[Cell.mk (some Sign.X), Cell.mk (some Sign.O), Cell.mk none],
      [Cell.mk none, Cell.mk none, Cell.mk none],
      [Cell.mk none, Cell.mk none, Cell.mk none]]) Sign.X false).current_player
      = Sign.not (GameState.mk (Field.mk [[Cell.mk (some Sign.X), Cell.mk none, Cell.mk none],
      [Cell.mk none, Cell.mk none, Cell.mk none],
      [Cell.mk none, Cell.mk none, Cell.mk none]]) Sign.O false).current_player ∧
    (GameState.mk (Field.mk [[Cell.mk (some Sign.X), Cell.mk none, Cell.mk none],
      [Cell.mk none, Cell.mk none, Cell.mk none],
      [Cell.mk none, Cell.mk none, Cell.mk none]]) Sign.O false).current_player
      ≠ (GameState.mk (Field.empty 3) Sign.X false).current_player :=
  claim_C9 _ _ _ 0 0 0 1 (by decide) (by decide)

/-- C10 (confirmed): `check_win` returns a boolean on every square board of
side at least 3, and on the side-1 board that `Field.empty` permits it hits
an out-of-bounds read (`none`, the model of the Rust panic at
`field.0[1][1]`). -/
theorem claim_C10 :
    (∀ (f : Field) (n : Nat) (p : Sign), isSquare f n → 3 ≤ n →
        (check_win f p).isSome = true) ∧
    check_win (Field.empty 1) Sign.X = none := by
  constructor
  · intro f n p h hn
    obtain ⟨c11, h11⟩ := cellAt_some f n h (show 1 < n by omega) (show 1 < n by omega)
    obtain ⟨c00, h00⟩ := cellAt_some f n h (show 0 < n by omega) (show 0 < n by omega)
    obtain ⟨c22, h22⟩ := cellAt_some f n h (show 2 < n by omega) (show 2 < n by omega)
    obtain ⟨c02, h02⟩ := cellAt_some f n h (show 0 < n by omega) (show 2 < n by omega)
    obtain ⟨c20, h20⟩ := cellAt_some f n h (show 2 < n by omega) (show 0 < n by omega)
    rw [check_win_eval f p c11 c00 c22 c02 c20 h11 h00 h22 h02 h20]
    rfl
  · rfl

/-- C10 witness: a concrete 3×3 board on which the totality part applies. -/
theorem claim_C10_witness :
    (check_win (Field.mk [[Cell.mk (some Sign.X), Cell.mk none, Cell.mk none],
      [Cell.mk none, Cell.mk (some Sign.O), Cell.mk none],
      [Cell.mk none, Cell.mk none, Cell.mk none]]) Sign.O).isSome = true :=
  claim_C10.1 _ 3 Sign.O (by decide) (by decide)

end TicTacToe
